import Mathlib

/-!
Verification of the bracket-markup parser of `tts_lib/markup_parser.py`
(class `BracketMarkupProcessor`) against its natural-language specification.

The embedding below is a direct shallow translation of the Python source:
* Python `float` values are modelled as exact rationals `ℚ` (all arithmetic
  performed by the parser is addition and multiplication of parsed decimal
  literals);
* `float(str)` is modelled by `parseFloat` below, covering sign, decimal
  point and exponent forms (the exotic `inf`/`nan`/underscore forms accepted
  by CPython are outside the fragment exercised by the parser's markup);
* the regex tokenizer `(\[pause:[0-9.]+\]|\[[^\]]+\]|\[/\]|[^[\]]+)` with
  `findall` is modelled by `tokenize`, which scans left to right, trying the
  alternatives in order at each position and skipping a character when none
  matches (exactly the behaviour of `re.findall` with this pattern; the
  `\[/\]` alternative is subsumed by `\[[^\]]+\]` and hence unreachable);
* preset tables are association lists from names to lists of
  (attribute-key, multiplier) pairs, as loaded from `config.json`.
-/

/-- Python `str.split` / `re` whitespace for the ASCII fragment:
space, tab, newline, carriage return, vertical tab, form feed. -/
def isPySpace (c : Char) : Bool :=
  c = ' ' || c = '\t' || c = '\n' || c = '\r' || c = '\x0b' || c = '\x0c'

/-- Drop leading whitespace characters (Python `str.lstrip`). -/
def stripL (l : List Char) : List Char := l.dropWhile isPySpace

/-- Drop trailing whitespace characters (Python `str.rstrip`). -/
def stripR (l : List Char) : List Char :=
  ((l.reverse).dropWhile isPySpace).reverse

/-- Python `str.strip()`. -/
def pyStrip (s : String) : String := String.mk (stripR (stripL s.data))

/-- Python `str.lower()` on the ASCII fragment. -/
def pyLower (s : String) : String := String.mk (s.data.map Char.toLower)

/-- One pass of `re.sub(r'\s+', ' ', ·)`: collapse every maximal run of
whitespace to a single space.  The boolean records whether the previous
character was part of a whitespace run. -/
def collapseAux : Bool → List Char → List Char
  | _, [] => []
  | prevSpace, c :: rest =>
    if isPySpace c then
      if prevSpace then collapseAux true rest
      else ' ' :: collapseAux true rest
    else c :: collapseAux false rest

/-- Python `re.sub(r'\s+', ' ', token).strip()`: the whitespace
normalisation applied to every text token before buffering. -/
def normalizeWs (s : String) : String :=
  pyStrip (String.mk (collapseAux false s.data))

/-- Python `" ".join(list)`. -/
def joinSpaces : List String → String
  | [] => ""
  | [s] => s
  | s :: s2 :: rest => s ++ " " ++ joinSpaces (s2 :: rest)

/-- Python slicing `s[n:]` (all our inputs are ASCII, so character and
byte indexing agree). -/
def strDrop (s : String) (n : Nat) : String := String.mk (s.data.drop n)

/-- Python slicing `s[:-n]`. -/
def strDropRight (s : String) (n : Nat) : String :=
  String.mk (s.data.take (s.data.length - n))

/-- Python `c in s`. -/
def strContains (s : String) (c : Char) : Bool := s.data.contains c

/-- Python `str.split(sep)` on a single-character separator (pieces do not
contain the separator; empty pieces are kept). -/
def splitChar (sep : Char) : List Char → List (List Char)
  | [] => [[]]
  | c :: rest =>
    let r := splitChar sep rest
    if c = sep then [] :: r
    else
      match r with
      | [] => [[c]]
      | g :: gs => (c :: g) :: gs

def pySplit (sep : Char) (s : String) : List String :=
  (splitChar sep s.data).map String.mk

/-- `pre` is a prefix of `s` (Python `str.startswith`). -/
def strStartsWith (s pre : String) : Bool := pre.data.isPrefixOf s.data

/-- `suf` is a suffix of `s` (Python `str.endswith`). -/
def strEndsWith (s suf : String) : Bool := suf.data.isSuffixOf s.data

/-- Numeric value of a digit run. -/
def digitsVal (cs : List Char) : Nat :=
  cs.foldl (fun n c => 10 * n + (c.toNat - 48)) 0

/-- Exponent part of a float literal: optional sign then at least one
digit, consuming the whole remainder. -/
def parseExp (cs : List Char) : Option Int :=
  let signed : Int × List Char :=
    match cs with
    | '+' :: r => (1, r)
    | '-' :: r => (-1, r)
    | r => (1, r)
  if signed.2 ≠ [] ∧ signed.2.all Char.isDigit then
    some (signed.1 * (digitsVal signed.2 : Int))
  else none

/-- Scale a mantissa by a (possibly negative) power of ten. -/
def applyExp (q : ℚ) (e : Int) : ℚ := q * (10 : ℚ) ^ e

/-- Unsigned part of a Python float literal: `digits`, `digits.`,
`.digits`, `digits.digits`, optionally followed by an exponent. -/
def parseMantissa (cs : List Char) : Option ℚ :=
  let ip := cs.takeWhile Char.isDigit
  let rest := cs.dropWhile Char.isDigit
  match rest with
  | [] => if ip = [] then none else some ((digitsVal ip : Nat) : ℚ)
  | '.' :: rest2 =>
    let fp := rest2.takeWhile Char.isDigit
    let rest3 := rest2.dropWhile Char.isDigit
    if ip = [] ∧ fp = [] then none
    else
      let base : ℚ := ((digitsVal (ip ++ fp) : Nat) : ℚ) / ((10 : ℚ) ^ fp.length)
      match rest3 with
      | [] => some base
      | 'e' :: r => (parseExp r).map (applyExp base)
      | 'E' :: r => (parseExp r).map (applyExp base)
      | _ => none
  | 'e' :: r => if ip = [] then none else (parseExp r).map (applyExp ((digitsVal ip : Nat) : ℚ))
  | 'E' :: r => if ip = [] then none else (parseExp r).map (applyExp ((digitsVal ip : Nat) : ℚ))
  | _ => none

/-- Model of Python `float(str)` on the decimal fragment: surrounding
whitespace, optional sign, decimal mantissa, optional exponent.
`none` models `ValueError`. -/
def parseFloat (s : String) : Option ℚ :=
  match (pyStrip s).data with
  | [] => none
  | '+' :: r => parseMantissa r
  | '-' :: r => (parseMantissa r).map (fun q => -q)
  | cs => parseMantissa cs

/-- Python `string.punctuation`. -/
def punctuationChars : List Char :=
  "!\"#$%&\x27()*+,-./:;<=>?@[\\]^_\x60\x7b|\x7d~".data

def isPunct (c : Char) : Bool := punctuationChars.contains c

/-- The attribute keys of the scope dictionary that hold floats
(`rate`, `pitch`, `volume`, `pause_before`, `pause_after`); `spell` is the
only non-float key and is handled separately, exactly as in
`_apply_attributes`. -/
inductive FloatKey
  | rate
  | pitch
  | volume
  | pauseBefore
  | pauseAfter
deriving DecidableEq

/-- An attribute scope: the dictionary returned by `_get_default_attrs`. -/
structure Attrs where
  rate : ℚ
  pitch : ℚ
  volume : ℚ
  pause_before : ℚ
  pause_after : ℚ
  spell : Bool
deriving DecidableEq

/-- `_get_default_attrs()`. -/
def defaultAttrs : Attrs :=
  { rate := 1, pitch := 1, volume := 1, pause_before := 0, pause_after := 0, spell := false }

/-- `attrs[key] = v` for a float key. -/
def setKey (a : Attrs) : FloatKey → ℚ → Attrs
  | FloatKey.rate, v => { a with rate := v }
  | FloatKey.pitch, v => { a with pitch := v }
  | FloatKey.volume, v => { a with volume := v }
  | FloatKey.pauseBefore, v => { a with pause_before := v }
  | FloatKey.pauseAfter, v => { a with pause_after := v }

/-- `attrs[key] *= v` for a float key. -/
def mulKey (a : Attrs) : FloatKey → ℚ → Attrs
  | FloatKey.rate, v => { a with rate := a.rate * v }
  | FloatKey.pitch, v => { a with pitch := a.pitch * v }
  | FloatKey.volume, v => { a with volume := a.volume * v }
  | FloatKey.pauseBefore, v => { a with pause_before := a.pause_before * v }
  | FloatKey.pauseAfter, v => { a with pause_after := a.pause_after * v }

/-- The string keys recognised by `key.strip() in attrs`. -/
def floatKeyOf (s : String) : Option FloatKey :=
  if s = "rate" then some FloatKey.rate
  else if s = "pitch" then some FloatKey.pitch
  else if s = "volume" then some FloatKey.volume
  else if s = "pause_before" then some FloatKey.pauseBefore
  else if s = "pause_after" then some FloatKey.pauseAfter
  else none

/-- A preset body: the `{attribute-key: multiplier}` mapping of one named
preset in `config.json`. -/
abbrev PresetBody := List (FloatKey × ℚ)

/-- `for key, value in preset.items(): attrs[key] *= value`. -/
def applyPairs (a : Attrs) (ps : PresetBody) : Attrs :=
  ps.foldl (fun a kv => mulKey a kv.1 kv.2) a

/-- Python `dict` lookup on the loaded preset table. -/
def findPreset : List (String × PresetBody) → String → Option PresetBody
  | [], _ => none
  | (n, ps) :: rest, name => if n = name then some ps else findPreset rest name

/-- The processor's configuration: the two preset tables loaded by
`_load_presets` and the `spell_pause_duration` constructor argument. -/
structure TTSConfig where
  emotion_presets : List (String × PresetBody)
  modifier_presets : List (String × PresetBody)
  spell_pause_duration : ℚ

/-- Split at the first occurrence of `sep` (Python `str.split(sep, 1)`,
assuming `sep` occurs). -/
def splitFirst (sep : Char) (s : String) : String × String :=
  (String.mk (s.data.takeWhile (fun c => c ≠ sep)),
   String.mk ((s.data.dropWhile (fun c => c ≠ sep)).drop 1))

/-- One iteration of the loop in `_apply_attributes`, acting on an already
stripped-and-lowercased attribute token `attr`. -/
def applyNormToken (cfg : TTSConfig) (a : Attrs) (attr : String) : Attrs :=
  if strContains attr ':' then
    let key := pyStrip (splitFirst ':' attr).1
    let value := pyStrip (splitFirst ':' attr).2
    if key = "spell" then
      { a with spell := (pyLower value = "true" || value = "1") }
    else
      match floatKeyOf key with
      | some k =>
        match parseFloat value with
        | some q => setKey a k q
        | none => a
      | none => a
  else if attr = "spell" then { a with spell := true }
  else
    match findPreset cfg.emotion_presets attr with
    | some ps => applyPairs a ps
    | none =>
      match findPreset cfg.modifier_presets attr with
      | some ps => applyPairs a ps
      | none => a

/-- One iteration of the loop in `_apply_attributes` on a raw
comma-separated piece: `attr = attr.strip().lower()` then the `if`/`elif`
chain. -/
def applyAttrToken (cfg : TTSConfig) (a : Attrs) (raw : String) : Attrs :=
  applyNormToken cfg a (pyLower (pyStrip raw))

/-- `_apply_attributes(current_attrs, new_attrs_str)`. -/
def applyAttributes (cfg : TTSConfig) (current : Attrs) (spec : String) : Attrs :=
  (pySplit ',' spec).foldl (applyAttrToken cfg) current

/-- `SpeechSegment` from `tts_lib/data_structures.py`. -/
structure SpeechSegment where
  text : String
  pause_before : ℚ := 0
  pause_after : ℚ := 0
  rate : ℚ := 1
  pitch : ℚ := 1
  volume : ℚ := 1
  spell : Bool := false
  voice : Option String := none
  start_time : ℚ := 0
  end_time : ℚ := 0
  duration : ℚ := 0
deriving DecidableEq

/-- `_PHONETIC_SPELLING_MAP`. -/
def phoneticMap : List (Char × String) :=
  [('A', "AAY"), ('B', "Bee"), ('C', "See"), ('D', "Dee"), ('E', "Eee"),
   ('F', "Eff"), ('G', "Gee"), ('H', "Aitch"), ('I', "Eye"), ('J', "Jay"),
   ('K', "Kay"), ('L', "Ell"), ('M', "Em"), ('N', "En"), ('O', "Oh"),
   ('P', "Pee"), ('Q', "Cue"), ('R', "Ar"), ('S', "Ess"), ('T', "Tee"),
   ('U', "You"), ('V', "Vee"), ('W', "Double-you"), ('X', "Ex"), ('Y', "Why"),
   ('Z', "Zee"),
   ('0', "zero"), ('1', "one"), ('2', "two"), ('3', "three"), ('4', "four"),
   ('5', "five"), ('6', "six"), ('7', "seven"), ('8', "eight"), ('9', "nine")]

/-- One character of the spell-out loop: the phonetic entry for the
upper-cased character when present, the character itself otherwise. -/
def phon (c : Char) : String :=
  match phoneticMap.lookup c.toUpper with
  | some w => w
  | none => String.singleton c

/-- The spelled-flush emission loop of `_flush_text_buffer`: one segment
per phonetic token, with a synthetic zero-text pause segment after every
token but the last. -/
def spellSegs (d r p v : ℚ) : List String → List SpeechSegment
  | [] => []
  | [w] => [{ text := w, rate := r, pitch := p, volume := v }]
  | w :: w2 :: ws =>
    { text := w, rate := r, pitch := p, volume := v } ::
    { text := "", pause_before := d, rate := r, pitch := p, volume := v } ::
    spellSegs d r p v (w2 :: ws)

/-- Apply `f` to the last element (`segments[-1]`) of a list. -/
def modifyLast {α : Type} (f : α → α) : List α → List α
  | [] => []
  | [x] => [f x]
  | x :: y :: rest => x :: modifyLast f (y :: rest)

/-- The mutable state of `parse_markup`'s token loop: the output list,
the attribute stack (top kept separately so that the stack is non-empty
by construction, as in the source where the root scope is never popped),
the text buffer and the `text_segment_created` flag. -/
structure ParseState where
  segments : List SpeechSegment
  topAttrs : Attrs
  restStack : List Attrs
  buffer : List String
  created : Bool
deriving DecidableEq

def initState : ParseState :=
  { segments := [], topAttrs := defaultAttrs, restStack := [], buffer := [], created := false }

/-- `segments and segments[-1].text != ""`, the second and third conjuncts
of the punctuation-merge test. -/
def mergeCheck (segs : List SpeechSegment) : Bool :=
  match segs.getLast? with
  | some sg => sg.text ≠ ""
  | none => false

/-- `_flush_text_buffer`.  When the buffer is non-empty the joined text is
either merged onto the previous segment (punctuation-merge), spelled out,
or emitted as one plain segment; in every such case the buffer is cleared
and the top scope's `pause_before` is reset to `0`. -/
def flushBuffer (cfg : TTSConfig) (st : ParseState) : ParseState :=
  match st.buffer with
  | [] => st
  | _ :: _ =>
    let tc := pyStrip (joinSpaces st.buffer)
    let st1 :=
      if tc = "" then st
      else if tc.data.all isPunct && mergeCheck st.segments then
        { st with segments := modifyLast (fun sg => { sg with text := sg.text ++ tc }) st.segments }
      else if st.topAttrs.spell then
        { st with created := true,
                  segments := st.segments ++
                    spellSegs cfg.spell_pause_duration st.topAttrs.rate st.topAttrs.pitch
                      st.topAttrs.volume (tc.data.map phon) }
      else
        { st with created := true,
                  segments := st.segments ++
                    [{ text := tc, pause_before := st.topAttrs.pause_before,
                       rate := st.topAttrs.rate, pitch := st.topAttrs.pitch,
                       volume := st.topAttrs.volume }] }
    { st1 with buffer := [], topAttrs := { st1.topAttrs with pause_before := 0 } }

/-- One iteration of the token loop of `parse_markup`. -/
def processToken (cfg : TTSConfig) (st : ParseState) (tok : String) : ParseState :=
  if strStartsWith tok "[" && strEndsWith tok "]" then
    if tok = "[/]" then
      let st1 := flushBuffer cfg st
      match st1.restStack with
      | [] => st1
      | r :: rs => { st1 with topAttrs := r, restStack := rs }
    else if strStartsWith tok "[pause:" then
      let st1 := flushBuffer cfg st
      match parseFloat (strDropRight (strDrop tok 7) 1) with
      | some d =>
        match st1.segments with
        | [] =>
          { st1 with topAttrs := { st1.topAttrs with pause_before := st1.topAttrs.pause_before + d } }
        | _ :: _ =>
          { st1 with segments := modifyLast (fun sg => { sg with pause_after := sg.pause_after + d }) st1.segments }
      | none => st1
    else
      let attrsStr := strDropRight (strDrop tok 1) 1
      let temp := applyAttributes cfg st.topAttrs attrsStr
      let st1 := if st.buffer ≠ [] ∧ temp ≠ st.topAttrs then flushBuffer cfg st else st
      { st1 with topAttrs := temp, restStack := st1.topAttrs :: st1.restStack }
  else
    if pyStrip tok = "" then st
    else { st with buffer := st.buffer ++ [normalizeWs tok] }

/-- Characters allowed inside the `[0-9.]+` pause-duration pattern. -/
def isPauseChar (c : Char) : Bool := c.isDigit || c = '.'

def notBracket (c : Char) : Bool := c ≠ '[' && c ≠ ']'

/-- Attempt the `\[pause:[0-9.]+\]` alternative at a position whose `[`
has already been consumed; returns the matched token and the remainder. -/
def matchPause (rest : List Char) : Option (String × List Char) :=
  if "pause:".data.isPrefixOf rest then
    let r2 := rest.drop 6
    let run := r2.takeWhile isPauseChar
    match run, r2.dropWhile isPauseChar with
    | _ :: _, ']' :: r4 =>
      some (String.mk ('[' :: "pause:".data ++ run ++ [']']), r4)
    | _, _ => none
  else none

/-- Attempt the `\[[^\]]+\]` alternative at a position whose `[` has
already been consumed. -/
def matchGeneral (rest : List Char) : Option (String × List Char) :=
  let inner := rest.takeWhile (fun c => c ≠ ']')
  match inner, rest.dropWhile (fun c => c ≠ ']') with
  | _ :: _, ']' :: r4 => some (String.mk ('[' :: inner ++ [']']), r4)
  | _, _ => none

/-- `re.findall` with the token pattern: scan left to right, trying the
alternatives in order at each position and skipping one character when
none matches.  Structural on a fuel argument so that the definition
computes by kernel reduction; `tokenize` supplies fuel equal to the
input length, which every step strictly decreases. -/
def tokenizeAux : Nat → List Char → List String
  | 0, _ => []
  | _ + 1, [] => []
  | fuel + 1, c :: rest =>
    if c = '[' then
      match matchPause rest with
      | some (t, rem) => t :: tokenizeAux fuel rem
      | none =>
        match matchGeneral rest with
        | some (t, rem) => t :: tokenizeAux fuel rem
        | none => tokenizeAux fuel rest
    else if c = ']' then
      tokenizeAux fuel rest
    else
      String.mk (c :: rest.takeWhile notBracket) ::
        tokenizeAux fuel (rest.dropWhile notBracket)

/-- `self.token_pattern.findall(markup_text)`. -/
def tokenize (s : String) : List String := tokenizeAux s.data.length s.data

/-- The token loop of `parse_markup`. -/
def runTokens (cfg : TTSConfig) (toks : List String) : ParseState :=
  toks.foldl (processToken cfg) initState

/-- The finalization step of `parse_markup` after the last flush. -/
def finalize (st : ParseState) : List SpeechSegment :=
  if st.created = false ∧ st.topAttrs.pause_before > 0 then
    st.segments ++ [{ text := "", pause_before := st.topAttrs.pause_before }]
  else if st.segments = [] ∧ st.created = false then
    [{ text := "" }]
  else st.segments

/-- `parse_markup`. -/
def parseMarkup (cfg : TTSConfig) (s : String) : List SpeechSegment :=
  finalize (flushBuffer cfg (runTokens cfg (tokenize s)))

/-- A configuration with empty preset tables (the fallback of
`_load_presets`) and zero spell-pause duration. -/
def cfg0 : TTSConfig := { emotion_presets := [], modifier_presets := [], spell_pause_duration := 0 }

/-- A configuration with empty preset tables and spell-pause duration `1/2`. -/
def cfgSpell : TTSConfig :=
  { emotion_presets := [], modifier_presets := [], spell_pause_duration := 1/2 }

/-- Concatenation of a list of strings (no separator). -/
def strJoin : List String → String
  | [] => ""
  | s :: rest => s ++ strJoin rest

/-- Concatenating the non-empty texts of the output segments in order,
separated by single spaces (the quantity the spec's idempotence property
talks about). -/
def concatTexts (l : List SpeechSegment) : String :=
  joinSpaces ((l.map (fun sg => sg.text)).filter (fun t => t != ""))

/-- The "tag-stripped input": the input with every substring that the
tokenizer classifies as a bracket tag removed and the rest kept in order.
This is a spec-side notion (the source never materialises it); it is
defined from the tokenizer so that "tag" means exactly what the spec's
tokenizer section says it means. -/
def stripTags (s : String) : String :=
  strJoin ((tokenize s).filter (fun t => !(strStartsWith t "[" && strEndsWith t "]")))

/-!
## Helper lemmas
-/

theorem flushBuffer_nil (cfg : TTSConfig) (st : ParseState) (h : st.buffer = []) :
    flushBuffer cfg st = st := by
  unfold flushBuffer
  rw [h]

theorem flushBuffer_restStack (cfg : TTSConfig) (st : ParseState) :
    (flushBuffer cfg st).restStack = st.restStack := by
  unfold flushBuffer
  cases st.buffer with
  | nil => rfl
  | cons a l =>
    dsimp only
    split
    · rfl
    · split
      · rfl
      · split
        · rfl
        · rfl

theorem tokenizeAux_nil (fuel : Nat) : tokenizeAux fuel [] = [] := by
  cases fuel <;> rfl

theorem length_modifyLast {α : Type} (f : α → α) (l : List α) :
    (modifyLast f l).length = l.length := by
  induction l with
  | nil => rfl
  | cons x rest ih =>
    cases rest with
    | nil => rfl
    | cons y t =>
      simp only [modifyLast, List.length_cons] at ih ⊢
      omega

theorem modifyLast_ne_nil {α : Type} (f : α → α) (l : List α) (h : l ≠ []) :
    modifyLast f l ≠ [] := by
  intro hc
  apply h
  have := length_modifyLast f l
  rw [hc] at this
  exact List.length_eq_zero.mp this.symm

theorem spellSegs_eq_intersperse (d r p v : ℚ) (ws : List String) :
    spellSegs d r p v ws =
      List.intersperse { text := "", pause_before := d, rate := r, pitch := p, volume := v }
        (ws.map (fun w => ({ text := w, rate := r, pitch := p, volume := v } : SpeechSegment))) := by
  induction ws with
  | nil => rfl
  | cons w tl ih =>
    cases tl with
    | nil => rfl
    | cons w2 tl2 =>
      simp only [spellSegs, List.map_cons, List.intersperse_cons_cons] at ih ⊢
      rw [ih]

theorem spellSegs_length (d r p v : ℚ) (ws : List String) (h : ws ≠ []) :
    (spellSegs d r p v ws).length = 2 * ws.length - 1 := by
  induction ws with
  | nil => exact absurd rfl h
  | cons w tl ih =>
    cases tl with
    | nil => rfl
    | cons w2 tl2 =>
      have := ih (by simp)
      simp only [spellSegs, List.length_cons] at this ⊢
      omega

theorem spellSegs_ne_nil (d r p v : ℚ) (ws : List String) (h : ws ≠ []) :
    spellSegs d r p v ws ≠ [] := by
  cases ws with
  | nil => exact absurd rfl h
  | cons w tl => cases tl <;> simp [spellSegs]

/-- Invariant: once `text_segment_created` is set, the output list is
non-empty. -/
def SegInv (st : ParseState) : Prop := st.created = true → st.segments ≠ []

theorem string_eq_empty_iff (s : String) : s = "" ↔ s.data = [] := by
  rw [String.ext_iff]

theorem segInv_flushBuffer (cfg : TTSConfig) (st : ParseState) (h : SegInv st) :
    SegInv (flushBuffer cfg st) := by
  unfold flushBuffer
  cases st.buffer with
  | nil => exact h
  | cons a l =>
    dsimp only
    split
    · exact h
    · split
      · rename_i hcond
        intro _
        have hm : mergeCheck st.segments = true := by
          simp only [Bool.and_eq_true] at hcond
          exact hcond.2
        have hsegs : st.segments ≠ [] := by
          intro hnil
          rw [hnil] at hm
          simp [mergeCheck] at hm
        exact modifyLast_ne_nil _ _ hsegs
      · rename_i htc _
        split
        · intro _
          simp only [ne_eq, List.append_eq_nil, not_and]
          intro _
          apply spellSegs_ne_nil
          simp only [ne_eq, List.map_eq_nil_iff]
          intro hdata
          exact htc ((string_eq_empty_iff _).mpr hdata)
        · intro _
          simp

theorem segInv_processToken (cfg : TTSConfig) (st : ParseState) (tok : String)
    (h : SegInv st) : SegInv (processToken cfg st tok) := by
  unfold processToken
  have hf := segInv_flushBuffer cfg st h
  split
  · split
    · -- close tag
      dsimp only
      split
      · exact hf
      · intro hc
        exact hf hc
    · split
      · -- pause tag
        dsimp only
        split
        · split
          · -- segments empty: state changes only topAttrs
            intro hc
            rename_i hsegs
            exact absurd hsegs (hf hc)
          · -- segments nonempty: modifyLast
            intro hc
            rename_i hsegs
            apply modifyLast_ne_nil
            rw [hsegs]
            simp
        · exact hf
      · -- open tag
        dsimp only
        split
        · intro hc
          exact hf hc
        · intro hc
          exact h hc
  · -- text token
    split
    · exact h
    · intro hc
      exact h hc

theorem segInv_foldl (cfg : TTSConfig) (toks : List String) :
    ∀ st : ParseState, SegInv st → SegInv (toks.foldl (processToken cfg) st) := by
  induction toks with
  | nil => exact fun st h => h
  | cons t ts ih => exact fun st h => ih _ (segInv_processToken cfg st t h)

theorem segInv_runTokens (cfg : TTSConfig) (toks : List String) :
    SegInv (runTokens cfg toks) := by
  apply segInv_foldl
  intro hc
  simp [initState] at hc


theorem dropWhile_dropWhile (p : Char → Bool) (l : List Char) :
    List.dropWhile p (List.dropWhile p l) = List.dropWhile p l := by
  induction l with
  | nil => rfl
  | cons c rest ih =>
    by_cases hc : p c = true
    · rw [List.dropWhile_cons_of_pos hc]
      exact ih
    · have hc' : p c = false := by
        cases h : p c with
        | false => rfl
        | true => exact absurd h hc
      rw [List.dropWhile_cons_of_neg hc, List.dropWhile_cons_of_neg hc]

theorem stripR_prefix (l : List Char) : stripR l <+: l := by
  unfold stripR
  have h := List.dropWhile_suffix isPySpace (l := l.reverse)
  obtain ⟨t, ht⟩ := h
  refine ⟨t.reverse, ?_⟩
  have := congrArg List.reverse ht
  simpa using this

theorem stripL_head (l : List Char) :
    stripL l = [] ∨ ∃ c t, stripL l = c :: t ∧ isPySpace c = false := by
  induction l with
  | nil => exact Or.inl rfl
  | cons c rest ih =>
    by_cases hc : isPySpace c = true
    · rw [stripL, List.dropWhile_cons_of_pos hc]
      exact ih
    · have hc' : isPySpace c = false := by
        cases h : isPySpace c with
        | false => rfl
        | true => exact absurd h hc
      rw [stripL, List.dropWhile_cons_of_neg hc]
      exact Or.inr ⟨c, rest, rfl, hc'⟩

theorem stripR_stripR (l : List Char) : stripR (stripR l) = stripR l := by
  unfold stripR
  rw [List.reverse_reverse, dropWhile_dropWhile]

theorem stripL_stripR_stripL (l : List Char) :
    stripL (stripR (stripL l)) = stripR (stripL l) := by
  rcases stripL_head l with h | ⟨c, t, h, hc⟩
  · rw [h]
    rfl
  · rw [h]
    have hpre : stripR (c :: t) <+: c :: t := stripR_prefix _
    rcases hpre with ⟨u, hu⟩
    cases hm : stripR (c :: t) with
    | nil => rfl
    | cons c0 t0 =>
      rw [hm] at hu
      have hc0 : c0 = c := by
        simp only [List.cons_append, List.cons.injEq] at hu
        exact hu.1
      subst hc0
      unfold stripL
      rw [List.dropWhile_cons_of_neg (by simp [hc])]

theorem pyStrip_idem (s : String) : pyStrip (pyStrip s) = pyStrip s := by
  unfold pyStrip
  congr 1
  show stripR (stripL (stripR (stripL s.data))) = stripR (stripL s.data)
  rw [stripL_stripR_stripL]
  have : stripR (stripR (stripL s.data)) = stripR (stripL s.data) := stripR_stripR _
  exact this

theorem pyStrip_empty_iff (s : String) :
    pyStrip s = "" ↔ ∀ c ∈ s.data, isPySpace c = true := by
  rw [string_eq_empty_iff]
  show stripR (stripL s.data) = [] ↔ _
  unfold stripR
  rw [List.reverse_eq_nil_iff, List.dropWhile_eq_nil_iff]
  constructor
  · intro h c hc
    by_cases hsp : isPySpace c = true
    · exact hsp
    · -- c is in l; split l into takeWhile ++ dropWhile; c in dropWhile part → in reverse → space
      rcases (List.takeWhile_append_dropWhile (p := isPySpace) (l := s.data)) ▸ hc with hmem
      rw [List.mem_append] at hmem
      rcases hmem with h1 | h2
      · exact absurd (List.mem_takeWhile_imp h1) hsp
      · exact h c (by rw [List.mem_reverse]; exact h2)
  · intro h c hc
    rw [List.mem_reverse] at hc
    have : c ∈ s.data := by
      have hsub := List.dropWhile_suffix (l := s.data) (p := isPySpace)
      exact hsub.subset hc
    exact h c this

theorem collapseAux_allspace_iff (l : List Char) :
    ∀ b : Bool, (∀ c ∈ collapseAux b l, isPySpace c = true) ↔ (∀ c ∈ l, isPySpace c = true) := by
  induction l with
  | nil => intro b; simp [collapseAux]
  | cons c rest ih =>
    intro b
    by_cases hc : isPySpace c = true
    · cases b with
      | true =>
        rw [collapseAux, if_pos hc, if_pos rfl]
        rw [ih true]
        simp [hc]
      | false =>
        rw [collapseAux, if_pos hc, if_neg (by simp)]
        simp only [List.forall_mem_cons]
        rw [ih true]
        have hsp : isPySpace ' ' = true := by decide
        simp [hc, hsp]
    · have hc' : isPySpace c = false := by
        cases hh : isPySpace c with
        | false => rfl
        | true => exact absurd hh hc
      rw [collapseAux, if_neg hc]
      simp only [List.forall_mem_cons]
      rw [ih false]

theorem normalizeWs_empty_iff (s : String) :
    normalizeWs s = "" ↔ pyStrip s = "" := by
  unfold normalizeWs
  rw [pyStrip_empty_iff, pyStrip_empty_iff]
  show (∀ c ∈ collapseAux false s.data, isPySpace c = true) ↔ _
  rw [collapseAux_allspace_iff]

theorem pyStrip_normalizeWs (s : String) :
    pyStrip (normalizeWs s) = normalizeWs s := by
  unfold normalizeWs
  rw [pyStrip_idem]

theorem tokenizeAux_all_text (fuel : Nat) (cs : List Char) (hf : cs.length ≤ fuel)
    (hne : cs ≠ []) (hall : ∀ c ∈ cs, notBracket c = true) :
    tokenizeAux fuel cs = [String.mk cs] := by
  cases fuel with
  | zero =>
    cases cs with
    | nil => exact absurd rfl hne
    | cons c rest => simp at hf
  | succ fuel =>
    cases cs with
    | nil => exact absurd rfl hne
    | cons c rest =>
      have hc := hall c (List.mem_cons_self c rest)
      have hc1 : ¬ c = '[' := by
        intro h
        rw [h] at hc
        simp [notBracket] at hc
      have hc2 : ¬ c = ']' := by
        intro h
        rw [h] at hc
        simp [notBracket] at hc
      rw [tokenizeAux, if_neg hc1, if_neg hc2]
      have htake : rest.takeWhile notBracket = rest :=
        List.takeWhile_eq_self_iff.mpr (fun x hx => hall x (List.mem_cons_of_mem c hx))
      have hdrop : rest.dropWhile notBracket = [] :=
        List.dropWhile_eq_nil_iff.mpr (fun x hx => hall x (List.mem_cons_of_mem c hx))
      rw [htake, hdrop, tokenizeAux_nil]

theorem tokenize_no_bracket (s : String) (hne : s.data ≠ [])
    (hall : ∀ c ∈ s.data, notBracket c = true) :
    tokenize s = [s] := by
  unfold tokenize
  rw [tokenizeAux_all_text s.data.length s.data le_rfl hne hall]

theorem punct_not_in_phoneticMap :
    ∀ c ∈ punctuationChars, phoneticMap.lookup c.toUpper = none := by decide

theorem startsWith_pause_imp_bracket (tok : String)
    (h : strStartsWith tok "[pause:" = true) : strStartsWith tok "[" = true := by
  unfold strStartsWith at h ⊢
  rw [List.isPrefixOf_iff_prefix] at h ⊢
  exact List.IsPrefix.trans ⟨['p', 'a', 'u', 's', 'e', ':'], rfl⟩ h

theorem startsWith_pause_ne_close (tok : String)
    (h : strStartsWith tok "[pause:" = true) : tok ≠ "[/]" := by
  unfold strStartsWith at h
  rw [List.isPrefixOf_iff_prefix] at h
  obtain ⟨t, ht⟩ := h
  intro hc
  rw [hc] at ht
  have := congrArg List.length ht
  simp at this

theorem stripTags_no_bracket (s : String)
    (hall : ∀ c ∈ s.data, notBracket c = true) :
    stripTags s = s := by
  by_cases hd : s.data = []
  · have hs : s = "" := (string_eq_empty_iff s).mpr hd
    subst hs
    rfl
  · obtain ⟨c, rest, hcons⟩ : ∃ c rest, s.data = c :: rest := by
      cases h : s.data with
      | nil => exact absurd h hd
      | cons c rest => exact ⟨c, rest, rfl⟩
    have hcne : ¬ c = '[' := by
      have hc := hall c (by rw [hcons]; exact List.mem_cons_self c rest)
      intro h
      rw [h] at hc
      simp [notBracket] at hc
    have hb1 : strStartsWith s "[" = false := by
      unfold strStartsWith
      rw [hcons]
      show ('[' :: []).isPrefixOf (c :: rest) = false
      rw [List.isPrefixOf_cons₂]
      have : ('[' == c) = false := by
        cases h : '[' == c with
        | false => rfl
        | true => exact absurd (eq_comm.mp (eq_of_beq h)) hcne
      rw [this]
      rfl
    unfold stripTags
    rw [tokenize_no_bracket s hd hall]
    rw [List.filter_cons]
    rw [hb1]
    simp [strJoin]

theorem parse_no_bracket (cfg : TTSConfig) (s : String)
    (hall : ∀ c ∈ s.data, notBracket c = true) :
    parseMarkup cfg s =
      if pyStrip s = "" then [{ text := "" }] else [{ text := normalizeWs s }] := by
  by_cases hd : s.data = []
  · have hs : s = "" := (string_eq_empty_iff s).mpr hd
    subst hs
    rw [if_pos (show pyStrip "" = "" from rfl)]
    with_unfolding_all rfl
  · obtain ⟨c, rest, hcons⟩ : ∃ c rest, s.data = c :: rest := by
      cases h : s.data with
      | nil => exact absurd h hd
      | cons c rest => exact ⟨c, rest, rfl⟩
    have hcne : ¬ c = '[' := by
      have hc := hall c (by rw [hcons]; exact List.mem_cons_self c rest)
      intro h
      rw [h] at hc
      simp [notBracket] at hc
    have hb1 : strStartsWith s "[" = false := by
      unfold strStartsWith
      rw [hcons]
      show ('[' :: []).isPrefixOf (c :: rest) = false
      rw [List.isPrefixOf_cons₂]
      have : ('[' == c) = false := by
        cases h : '[' == c with
        | false => rfl
        | true => exact absurd (eq_comm.mp (eq_of_beq h)) hcne
      rw [this]
      rfl
    unfold parseMarkup
    rw [tokenize_no_bracket s hd hall]
    have hrun : runTokens cfg [s] = processToken cfg initState s := rfl
    rw [hrun]
    have hstep : processToken cfg initState s =
        (if pyStrip s = "" then initState else { initState with buffer := [normalizeWs s] }) := by
      unfold processToken
      rw [hb1]
      simp only [Bool.false_and, Bool.false_eq_true, if_false]
      split
      · rfl
      · rfl
    rw [hstep]
    by_cases hblank : pyStrip s = ""
    · rw [if_pos hblank, if_pos hblank]
      with_unfolding_all rfl
    · rw [if_neg hblank, if_neg hblank]
      have htc : pyStrip (joinSpaces [normalizeWs s]) = normalizeWs s := by
        show pyStrip (normalizeWs s) = normalizeWs s
        exact pyStrip_normalizeWs s
      have hnwne : ¬ normalizeWs s = "" := fun hcon => hblank ((normalizeWs_empty_iff s).mp hcon)
      unfold flushBuffer
      dsimp only [initState, defaultAttrs]
      rw [htc, if_neg hnwne]
      simp only [show mergeCheck ([] : List SpeechSegment) = false from rfl, Bool.and_false,
        Bool.false_eq_true, if_false]
      unfold finalize
      dsimp only
      simp

/-!
## Claim theorems

Each claim of the specification review is settled by one theorem below
(plus, where applicable, a witness instantiation or a counterexample at a
concrete input).
-/

/-- C10: a pause tag whose duration parses as a negative float is not
ignored.  The token `[pause:-1]` fails the tokenizer's nonnegative
`[0-9.]+` pause alternative (`matchPause` rejects it) but is still
produced as a single bracket token by the general alternative, is
dispatched to the pause handler, and its value `-1` is added: it
decreases the last segment's `pause_after` when a segment exists, and the
active (top) scope's `pause_before` otherwise. -/
theorem pause_tag_negative_duration_accumulates :
    matchPause "pause:-1]".data = none ∧
    tokenize "[pause:-1]" = ["[pause:-1]"] ∧
    parseMarkup cfg0 "A[pause:-1]" = [{ text := "A", pause_after := -1 }] ∧
    parseMarkup cfg0 "[rate:2][pause:-1]B" =
      [{ text := "B", pause_before := -1, rate := 2 }] := by
  refine ⟨?_, ?_, ?_, ?_⟩ <;> with_unfolding_all decide

/-- C1 counterexample: after `[rate:2][pause:1]` (no segment emitted yet)
the duration `1` has been added to the pushed top scope's `pause_before`,
while the root scope — the only element below the top of the stack —
still has `pause_before = 0`, contradicting the claim that the duration
is added to the root scope.  Observably, closing the scope and then
emitting text loses the pause entirely. -/
theorem pause_on_empty_output_goes_to_top_scope_not_root :
    (runTokens cfg0 (tokenize "[rate:2][pause:1]")).segments = [] ∧
    (runTokens cfg0 (tokenize "[rate:2][pause:1]")).topAttrs.pause_before = 1 ∧
    (runTokens cfg0 (tokenize "[rate:2][pause:1]")).restStack.map Attrs.pause_before = [0] ∧
    parseMarkup cfg0 "[rate:2][pause:1][/]A" = [{ text := "A" }] := by
  refine ⟨?_, ?_, ?_, ?_⟩ <;> with_unfolding_all decide

/-- C2 counterexample: in `[pause:1][spell]AB` the pause of `1`
accumulated on the scope is discarded by the spelled flush — the next
real flush emits `AAY` with `pause_before = 0`, not `1`, and no output
segment ever carries the accumulated pause. -/
theorem spelled_flush_discards_pending_pause :
    parseMarkup cfgSpell "[pause:1][spell]AB" =
      [{ text := "AAY" }, { text := "", pause_before := 1/2 }, { text := "Bee" }] ∧
    (parseMarkup cfgSpell "[pause:1][spell]AB").map SpeechSegment.pause_before =
      [0, 1/2, 0] := by
  refine ⟨?_, ?_⟩ <;> with_unfolding_all decide

/-- C3 counterexample: an unmatched `[/]` between two text runs flushes
the pending buffer, so `a[/]b` parses to two segments while `ab` (the
same text with the token removed) parses to one — the two parses differ. -/
theorem unmatched_close_flush_changes_output :
    parseMarkup cfg0 "a[/]b" = [{ text := "a" }, { text := "b" }] ∧
    parseMarkup cfg0 "ab" = [{ text := "ab" }] ∧
    parseMarkup cfg0 "a[/]b" ≠ parseMarkup cfg0 "ab" := by
  refine ⟨?_, ?_, ?_⟩ <;> with_unfolding_all decide

/-- C4 counterexample: the `key:value` branch of `_apply_attributes`
recognises every key of the scope dictionary, so `pause_before:2` sets
the scope's `pause_before` to `2` — a `key:value` token can change a
scope's `pause_before`, contradicting the claim. -/
theorem key_value_can_set_pause_before :
    (applyAttributes cfg0 defaultAttrs "pause_before:2").pause_before = 2 ∧
    applyAttributes cfg0 defaultAttrs "pause_before:2" ≠ defaultAttrs := by
  refine ⟨?_, ?_⟩ <;> with_unfolding_all decide

/-- C7 counterexample: `"a[b"` contains no complete bracket tag (no
`[...]`, `[pause:...]` or `[/]` substring), yet the parse is not one
segment with the whitespace-normalized input: the tokenizer silently
drops the lone `[` and the two surrounding runs are buffered separately
and joined with a space. -/
theorem lone_bracket_breaks_no_markup_roundtrip :
    parseMarkup cfg0 "a[b" = [{ text := "a b" }] ∧
    normalizeWs "a[b" = "a[b" ∧
    ({ text := "a b" } : SpeechSegment) ≠ { text := "a[b" } := by
  refine ⟨?_, ?_, ?_⟩ <;> with_unfolding_all decide

/-- C8 counterexample: for `"a[x]b"` (with `x` no known preset, so the
open tag does not even flush) the concatenated segment texts are
`"a b"`, while the whitespace-normalized tag-stripped input is `"ab"`:
buffered runs are joined with single spaces, so a tag between two text
runs inserts a space that tag-stripping does not. -/
theorem concat_differs_from_tag_stripped_input :
    concatTexts (parseMarkup cfg0 "a[x]b") = "a b" ∧
    normalizeWs (stripTags "a[x]b") = "ab" ∧
    ("a b" : String) ≠ "ab" := by
  refine ⟨?_, ?_, ?_⟩ <;> with_unfolding_all decide

/-- C6: `parse_markup` is total — the embedding is a total function by
construction (all recursion is structural), and for every configuration
and every input string the returned segment list is non-empty: the
finalization step appends a pause-only or default empty segment whenever
no text segment was produced. -/
theorem parseMarkup_total_and_nonempty (cfg : TTSConfig) (s : String) :
    parseMarkup cfg s ≠ [] := by
  unfold parseMarkup finalize
  have hinv : SegInv (flushBuffer cfg (runTokens cfg (tokenize s))) :=
    segInv_flushBuffer cfg _ (segInv_runTokens cfg _)
  split
  · simp
  · split
    · simp
    · rename_i h1 h2
      set st := flushBuffer cfg (runTokens cfg (tokenize s)) with hst
      intro hnil
      apply h2
      constructor
      · exact hnil
      · by_contra hcr
        have hc2 : st.created = true := by
          cases hc : st.created with
          | false => exact absurd hc hcr
          | true => rfl
        exact hinv hc2 hnil

/-- C1 (amended): for every token of the form `[pause:...]` (any content,
including content that fails the tokenizer's `[0-9.]+` pause pattern), the
token loop flushes the text buffer first and then: if the duration text
`token[7:-1]` does not parse as a float the tag is skipped (the state is
exactly the flushed state); if it parses to `d` and the output sequence is
empty, `d` is added to the **current top** scope's `pause_before` (not
necessarily the root's); if the output sequence is non-empty, `d` is added
to the last segment's `pause_after` (so successive pause tags accumulate
additively). -/
theorem pause_tag_flushes_then_accumulates (cfg : TTSConfig) (st : ParseState) (tok : String)
    (h1 : strStartsWith tok "[pause:" = true) (h2 : strEndsWith tok "]" = true) :
    (parseFloat (strDropRight (strDrop tok 7) 1) = none →
        processToken cfg st tok = flushBuffer cfg st) ∧
    (∀ d, parseFloat (strDropRight (strDrop tok 7) 1) = some d →
        (flushBuffer cfg st).segments = [] →
        processToken cfg st tok =
          { flushBuffer cfg st with
            topAttrs := { (flushBuffer cfg st).topAttrs with
              pause_before := (flushBuffer cfg st).topAttrs.pause_before + d } }) ∧
    (∀ d, parseFloat (strDropRight (strDrop tok 7) 1) = some d →
        (flushBuffer cfg st).segments ≠ [] →
        processToken cfg st tok =
          { flushBuffer cfg st with
            segments := modifyLast
              (fun sg => { sg with pause_after := sg.pause_after + d })
              (flushBuffer cfg st).segments }) := by
  have hb1 := startsWith_pause_imp_bracket tok h1
  have hne := startsWith_pause_ne_close tok h1
  unfold processToken
  rw [hb1, h2, h1]
  simp only [Bool.and_self, if_true, if_neg hne]
  refine ⟨?_, ?_, ?_⟩
  · intro hd
    simp only [hd]
  · intro d hd hs
    simp only [hd]
    rw [hs]
  · intro d hd hs
    simp only [hd]
    cases hsegs : (flushBuffer cfg st).segments with
    | nil => exact absurd hsegs hs
    | cons sg sgs => rfl

/-- A state with one already-emitted segment and an empty buffer, used to
instantiate the pause-token theorem. -/
def pauseWitState : ParseState :=
  { segments := [{ text := "x" }], topAttrs := defaultAttrs, restStack := [],
    buffer := [], created := true }

/-- Witness for C1's theorem at the concrete token `[pause:2]`. -/
theorem pause_tag_flushes_then_accumulates_witness :
    strStartsWith "[pause:2]" "[pause:" = true ∧
    strEndsWith "[pause:2]" "]" = true ∧
    parseFloat (strDropRight (strDrop "[pause:2]" 7) 1) = some 2 ∧
    (flushBuffer cfg0 pauseWitState).segments ≠ [] ∧
    processToken cfg0 pauseWitState "[pause:2]" =
      { flushBuffer cfg0 pauseWitState with
        segments := modifyLast
          (fun sg => { sg with pause_after := sg.pause_after + 2 })
          (flushBuffer cfg0 pauseWitState).segments } :=
  ⟨by decide, by decide, by with_unfolding_all decide, by with_unfolding_all decide,
   (pause_tag_flushes_then_accumulates cfg0 pauseWitState "[pause:2]"
      (by decide) (by decide)).2.2 2
     (by with_unfolding_all decide) (by with_unfolding_all decide)⟩

/-- C2 (amended): every flush with a non-empty buffer resets the active
(top) scope's `pause_before` to `0`; the accumulated value is consumed —
i.e. becomes the `pause_before` of the emitted segment — only when the
flush is a plain flush (joined text non-empty, not a punctuation merge,
`spell` off).  A spelled or punctuation-merge flush resets the value
without consuming it. -/
theorem flush_resets_pause_and_plain_flush_consumes (cfg : TTSConfig) (st : ParseState)
    (hb : st.buffer ≠ []) :
    (flushBuffer cfg st).topAttrs.pause_before = 0 ∧
    (pyStrip (joinSpaces st.buffer) ≠ "" →
      ((pyStrip (joinSpaces st.buffer)).data.all isPunct && mergeCheck st.segments) = false →
      st.topAttrs.spell = false →
      (flushBuffer cfg st).segments = st.segments ++
        [{ text := pyStrip (joinSpaces st.buffer),
           pause_before := st.topAttrs.pause_before,
           rate := st.topAttrs.rate, pitch := st.topAttrs.pitch,
           volume := st.topAttrs.volume }]) := by
  unfold flushBuffer
  cases hbuf : st.buffer with
  | nil => exact absurd hbuf hb
  | cons a l =>
    dsimp only
    constructor
    · rfl
    · intro htc hcond hspell
      rw [if_neg htc, hcond, hspell]
      simp

/-- A state with a pending `pause_before` of `2` and the text `hi`
buffered, used to instantiate the flush theorem. -/
def flushWitState : ParseState :=
  { segments := [], topAttrs := { defaultAttrs with pause_before := 2 },
    restStack := [], buffer := ["hi"], created := false }

/-- Witness for C2's theorem: the flush emits `hi` with `pause_before = 2`
and resets the scope's `pause_before` to `0`. -/
theorem flush_resets_pause_witness :
    flushWitState.buffer ≠ [] ∧
    pyStrip (joinSpaces flushWitState.buffer) ≠ "" ∧
    ((pyStrip (joinSpaces flushWitState.buffer)).data.all isPunct &&
      mergeCheck flushWitState.segments) = false ∧
    flushWitState.topAttrs.spell = false ∧
    (flushBuffer cfg0 flushWitState).topAttrs.pause_before = 0 ∧
    (flushBuffer cfg0 flushWitState).segments = flushWitState.segments ++
      [{ text := pyStrip (joinSpaces flushWitState.buffer),
         pause_before := flushWitState.topAttrs.pause_before,
         rate := flushWitState.topAttrs.rate, pitch := flushWitState.topAttrs.pitch,
         volume := flushWitState.topAttrs.volume }] :=
  ⟨by decide, by decide, by decide, by decide,
   (flush_resets_pause_and_plain_flush_consumes cfg0 flushWitState (by decide)).1,
   (flush_resets_pause_and_plain_flush_consumes cfg0 flushWitState (by decide)).2
     (by decide) (by decide) (by decide)⟩

/-- C3 (amended): a close tag encountered while the scope stack is at root
leaves the stack unchanged and otherwise acts exactly as a buffer flush;
in particular, when the text buffer is empty it is a complete no-op on the
parser state.  (The original claim fails because the flush is observable:
see the counterexample.) -/
theorem unmatched_close_leaves_stack_and_flushes (cfg : TTSConfig) (st : ParseState)
    (h : st.restStack = []) :
    processToken cfg st "[/]" = flushBuffer cfg st ∧
    (st.buffer = [] → processToken cfg st "[/]" = st) := by
  have key : processToken cfg st "[/]" =
      (match (flushBuffer cfg st).restStack with
       | [] => flushBuffer cfg st
       | r :: rs => { flushBuffer cfg st with topAttrs := r, restStack := rs }) := rfl
  have h2 : (flushBuffer cfg st).restStack = [] := (flushBuffer_restStack cfg st).trans h
  constructor
  · rw [key, h2]
  · intro hb
    rw [key, h2]
    exact flushBuffer_nil cfg st hb

/-- Witness for C3's theorem at the initial state. -/
theorem unmatched_close_witness :
    initState.restStack = [] ∧ initState.buffer = [] ∧
    processToken cfg0 initState "[/]" = flushBuffer cfg0 initState ∧
    processToken cfg0 initState "[/]" = initState :=
  ⟨rfl, rfl, (unmatched_close_leaves_stack_and_flushes cfg0 initState rfl).1,
   (unmatched_close_leaves_stack_and_flushes cfg0 initState rfl).2 rfl⟩

/-- C4 (amended): in `_apply_attributes` a `key:value` token whose
(stripped) key is none of `rate`, `pitch`, `volume`, `pause_before`,
`pause_after`, `spell` is ignored: the resulting scope equals the scope
obtained without that token.  (The original claim fails because
`pause_before` and `pause_after` ARE recognised — the membership test is
against all keys of the scope dictionary; see the counterexample.) -/
theorem unrecognized_key_value_is_ignored (cfg : TTSConfig) (a : Attrs) (attr : String)
    (h1 : strContains attr ':' = true)
    (h2 : pyStrip (splitFirst ':' attr).1 ∉
      (["rate", "pitch", "volume", "pause_before", "pause_after", "spell"] : List String)) :
    applyNormToken cfg a attr = a := by
  unfold applyNormToken
  rw [h1]
  simp only [List.mem_cons, List.not_mem_nil, or_false, not_or] at h2
  obtain ⟨hr, hp, hv, hpb, hpa, hs⟩ := h2
  rw [if_neg hs]
  have : floatKeyOf (pyStrip (splitFirst ':' attr).1) = none := by
    unfold floatKeyOf
    rw [if_neg hr, if_neg hp, if_neg hv, if_neg hpb, if_neg hpa]
  simp only [this, if_true]

/-- Witness for C4's theorem at the concrete token `foo:2.0`. -/
theorem unrecognized_key_value_witness :
    strContains "foo:2.0" ':' = true ∧
    pyStrip (splitFirst ':' "foo:2.0").1 ∉
      (["rate", "pitch", "volume", "pause_before", "pause_after", "spell"] : List String) ∧
    applyNormToken cfg0 defaultAttrs "foo:2.0" = defaultAttrs :=
  ⟨by decide, by decide,
   unrecognized_key_value_is_ignored cfg0 defaultAttrs "foo:2.0" (by decide) (by decide)⟩

/-- C5: a flush performed while the top scope's `spell` flag is true, on a
buffer whose joined text consists of `k ≥ 1` characters that are all in
the 36-entry phonetic table (case-insensitively), appends exactly
`2k - 1` segments: the `k` per-character phonetic strings in character
order as text segments with `pause_before = 0` and `pause_after = 0`
(record defaults), interleaved — `List.intersperse`, so with no trailing
pause segment after the `k`-th — with `k - 1` empty-text segments each
carrying `pause_before` equal to the configured spell-pause duration. -/
theorem spelled_flush_emits_interleaved_segments (cfg : TTSConfig) (st : ParseState)
    (hb : st.buffer ≠ [])
    (hspell : st.topAttrs.spell = true)
    (_hd : cfg.spell_pause_duration > 0)
    (hne : (pyStrip (joinSpaces st.buffer)).data ≠ [])
    (hmap : ∀ c ∈ (pyStrip (joinSpaces st.buffer)).data,
      (phoneticMap.lookup c.toUpper).isSome = true) :
    (flushBuffer cfg st).segments = st.segments ++
      List.intersperse
        { text := "", pause_before := cfg.spell_pause_duration,
          rate := st.topAttrs.rate, pitch := st.topAttrs.pitch, volume := st.topAttrs.volume }
        ((pyStrip (joinSpaces st.buffer)).data.map (fun c =>
          ({ text := phon c, rate := st.topAttrs.rate, pitch := st.topAttrs.pitch,
             volume := st.topAttrs.volume } : SpeechSegment))) ∧
    (flushBuffer cfg st).segments.length =
      st.segments.length + (2 * (pyStrip (joinSpaces st.buffer)).data.length - 1) := by
  unfold flushBuffer
  cases hbuf : st.buffer with
  | nil => exact absurd hbuf hb
  | cons a l =>
    rw [hbuf] at hne hmap
    dsimp only
    have htc : ¬ pyStrip (joinSpaces (a :: l)) = "" := by
      intro hc
      exact hne ((string_eq_empty_iff _).mp hc)
    have hpunct : (pyStrip (joinSpaces (a :: l))).data.all isPunct = false := by
      cases hdata : (pyStrip (joinSpaces (a :: l))).data with
      | nil => exact absurd hdata hne
      | cons c cs =>
        have hc := hmap c (by rw [hdata]; exact List.mem_cons_self c cs)
        simp only [List.all_cons, Bool.and_eq_false_iff]
        left
        cases hp : isPunct c with
        | false => rfl
        | true =>
          have : phoneticMap.lookup c.toUpper = none :=
            punct_not_in_phoneticMap c (by
              simpa [isPunct, List.elem_iff] using hp)
          rw [this] at hc
          simp at hc
    rw [if_neg htc, hpunct, hspell]
    simp only [Bool.false_and, Bool.false_eq_true, if_false, if_true]
    constructor
    · rw [spellSegs_eq_intersperse, List.map_map]
      rfl
    · rw [List.length_append]
      rw [spellSegs_length]
      · rw [List.length_map]
      · simp only [ne_eq, List.map_eq_nil_iff]
        exact hne

/-- A state with `spell` active and the run `AB` buffered, used to
instantiate the spelled-flush theorem. -/
def spellWitState : ParseState :=
  { segments := [], topAttrs := { defaultAttrs with spell := true },
    restStack := [], buffer := ["AB"], created := false }

/-- Witness for C5's theorem: spelling `AB` with spell-pause duration
`1/2` yields `AAY`, a pause segment, `Bee` — three segments (`2·2 - 1`). -/
theorem spelled_flush_witness :
    spellWitState.buffer ≠ [] ∧
    spellWitState.topAttrs.spell = true ∧
    cfgSpell.spell_pause_duration > 0 ∧
    (pyStrip (joinSpaces spellWitState.buffer)).data ≠ [] ∧
    (∀ c ∈ (pyStrip (joinSpaces spellWitState.buffer)).data,
      (phoneticMap.lookup c.toUpper).isSome = true) ∧
    ((flushBuffer cfgSpell spellWitState).segments = spellWitState.segments ++
      List.intersperse
        { text := "", pause_before := cfgSpell.spell_pause_duration,
          rate := spellWitState.topAttrs.rate, pitch := spellWitState.topAttrs.pitch,
          volume := spellWitState.topAttrs.volume }
        ((pyStrip (joinSpaces spellWitState.buffer)).data.map (fun c =>
          ({ text := phon c, rate := spellWitState.topAttrs.rate,
             pitch := spellWitState.topAttrs.pitch,
             volume := spellWitState.topAttrs.volume } : SpeechSegment))) ∧
      (flushBuffer cfgSpell spellWitState).segments.length =
        spellWitState.segments.length +
          (2 * (pyStrip (joinSpaces spellWitState.buffer)).data.length - 1)) :=
  ⟨by decide, by decide, by with_unfolding_all decide, by decide, by decide,
   spelled_flush_emits_interleaved_segments cfgSpell spellWitState
     (by decide) (by decide) (by with_unfolding_all decide) (by decide) (by decide)⟩

/-- C9: when a bare preset name occurs in the emotion table, attribute
resolution applies the emotion table's multipliers — the result is
`applyPairs a ps` with `ps` taken from the emotion table, independent of
whatever the modifier table maps the same name to.  The modifier table is
only consulted for names absent from the emotion table (the `elif`
chain in `_apply_attributes`). -/
theorem emotion_preset_takes_precedence (cfg : TTSConfig) (a : Attrs) (attr : String)
    (ps : PresetBody)
    (h1 : strContains attr ':' = false)
    (h2 : attr ≠ "spell")
    (h3 : findPreset cfg.emotion_presets attr = some ps) :
    applyNormToken cfg a attr = applyPairs a ps := by
  unfold applyNormToken
  rw [h1]
  simp only [Bool.false_eq_true, if_false, if_neg h2, h3]

/-- A configuration whose two tables overlap on the name `happy` with
different multipliers, to instantiate the precedence theorem. -/
def overlapCfg : TTSConfig :=
  { emotion_presets := [("happy", [(FloatKey.rate, 2)])],
    modifier_presets := [("happy", [(FloatKey.rate, 3)])],
    spell_pause_duration := 0 }

/-- Witness for C9's theorem: with overlapping tables, `happy` multiplies
`rate` by the emotion table's `2`, not the modifier table's `3`. -/
theorem emotion_preset_takes_precedence_witness :
    strContains "happy" ':' = false ∧ ("happy" : String) ≠ "spell" ∧
    findPreset overlapCfg.emotion_presets "happy" = some [(FloatKey.rate, 2)] ∧
    applyNormToken overlapCfg defaultAttrs "happy" =
      applyPairs defaultAttrs [(FloatKey.rate, 2)] :=
  ⟨by decide, by decide, by with_unfolding_all decide,
   emotion_preset_takes_precedence overlapCfg defaultAttrs "happy" [(FloatKey.rate, 2)]
     (by decide) (by decide) (by with_unfolding_all decide)⟩

/-- C7 (amended): for every input string containing no `[` and no `]`
character, `parse_markup` returns exactly one segment whose text is the
whitespace-normalized input, or the single default empty segment when the
input is blank.  (The claim's original hypothesis — no complete bracket
tag substring — is too weak: a lone bracket character is silently dropped
by the tokenizer and splits the surrounding text; see the
counterexample.) -/
theorem no_bracket_input_single_segment (cfg : TTSConfig) (s : String)
    (hall : ∀ c ∈ s.data, notBracket c = true) :
    parseMarkup cfg s =
      if pyStrip s = "" then [{ text := "" }] else [{ text := normalizeWs s }] :=
  parse_no_bracket cfg s hall

/-- Witness for C7's theorem at the input `"hi  there "`. -/
theorem no_bracket_input_single_segment_witness :
    (∀ c ∈ ("hi  there " : String).data, notBracket c = true) ∧
    parseMarkup cfg0 "hi  there " =
      (if pyStrip "hi  there " = "" then [{ text := "" }]
       else [{ text := normalizeWs "hi  there " }]) :=
  ⟨by decide, no_bracket_input_single_segment cfg0 "hi  there " (by decide)⟩

/-- C8 (amended): for every input string containing no `[` and no `]`
character (so that tag-stripping is the identity), concatenating the
non-empty texts of the output segments in order, separated by single
spaces, equals the whitespace-normalized, tag-stripped input.  (In
general the property fails: a tag sitting between two text runs makes the
parser join the runs with a space that tag-stripping does not introduce,
and a spell scope replaces text by phonetic words; see the
counterexample.) -/
theorem concat_texts_round_trip_no_bracket (cfg : TTSConfig) (s : String)
    (hall : ∀ c ∈ s.data, notBracket c = true) :
    concatTexts (parseMarkup cfg s) = normalizeWs (stripTags s) := by
  rw [parse_no_bracket cfg s hall, stripTags_no_bracket s hall]
  by_cases hblank : pyStrip s = ""
  · rw [if_pos hblank]
    have hnw : normalizeWs s = "" := (normalizeWs_empty_iff s).mpr hblank
    rw [hnw]
    rfl
  · rw [if_neg hblank]
    have hnw : ¬ normalizeWs s = "" := fun hcon => hblank ((normalizeWs_empty_iff s).mp hcon)
    unfold concatTexts
    rw [List.map_cons, List.map_nil, List.filter_cons]
    have : (normalizeWs s != "") = true := by
      cases h : normalizeWs s != "" with
      | true => rfl
      | false =>
        exact absurd (by simpa using h) hnw
    rw [this]
    simp [joinSpaces]

/-- Witness for C8's theorem at the input `" a  b "`. -/
theorem concat_texts_round_trip_witness :
    (∀ c ∈ (" a  b " : String).data, notBracket c = true) ∧
    concatTexts (parseMarkup cfg0 " a  b ") = normalizeWs (stripTags " a  b ") :=
  ⟨by decide, concat_texts_round_trip_no_bracket cfg0 " a  b " (by decide)⟩
